import Mathlib

/-!
Verification of the in-memory retrieval-and-ranking engine
(src/lib/advanced-search-engine.ts) against its natural-language
specification.

The engine is shallowly embedded: TypeScript strings become Lean
String, JS arrays become List, numbers become ℚ (all constants in the
source are decimal literals), and the one genuinely irrational
quantity — the cosine similarity, a square root of a rational — is
represented exactly by the computable type Score below, whose order
relation is proved to agree with the real-number order.  The engine
can throw a TypeError on one reachable path, so the top-level search
is embedded in Except String.
-/

/-! ## String primitives modelling the JavaScript operations used -/

/-- Model of JS String.prototype.toLowerCase for one character.  The
source only lowercases ASCII letters, Japanese text is untouched;
this matches JS behaviour on every character that occurs in the
engine's keyword tables and data. -/
def lowerChar (c : Char) : Char :=
  if 'A' ≤ c ∧ c ≤ 'Z' then Char.ofNat (c.toNat + 32) else c

/-- Model of JS toLowerCase on a whole string. -/
def jsToLower (s : String) : String :=
  String.mk (s.data.map lowerChar)

/-- Char-list equality test used by the substring search. -/
def startsWith : List Char → List Char → Bool
  | [], _ => true
  | _ :: _, [] => false
  | a :: as, b :: bs => a == b && startsWith as bs

/-- Substring occurrence: does needle occur contiguously in hay?
Models JS String.prototype.includes (in particular any string
contains the empty string). -/
def occursIn (needle : List Char) : List Char → Bool
  | [] => startsWith needle []
  | c :: rest => startsWith needle (c :: rest) || occursIn needle rest

/-- Model of hay.includes(needle) from JS. -/
def jsIncludes (hay needle : String) : Bool :=
  occursIn needle.data hay.data

/-- Separator set of the tokenizer regex [\s,、。]+ (whitespace,
comma, Japanese comma, Japanese period; U+3000 is JS whitespace). -/
def isSep (c : Char) : Bool :=
  c.isWhitespace || c == '　' || c == ',' || c == '、' || c == '。'

/-- Split a char list at separator characters; pieces may be empty,
they are filtered out afterwards exactly as the source filters
zero-length words. -/
def splitChars : List Char → List Char → List (List Char)
  | acc, [] => [acc.reverse]
  | acc, c :: rest =>
    if isSep c then acc.reverse :: splitChars [] rest else splitChars (c :: acc) rest

/-- query.split(/[\s,、。]+/).filter(w => w.length > 0) from the source. -/
def words (s : String) : List String :=
  ((splitChars [] s.data).map String.mk).filter (fun w => w ≠ "")

/-- The normalized words the frequency maps are built from:
word.toLowerCase().trim() with empty words dropped.  trim is the
identity here because splitting removed every whitespace character,
so only the lowercasing remains. -/
def normWords (s : String) : List String :=
  ((words s).map jsToLower).filter (fun w => w ≠ "")

/-! ## Kernel-computable rational arithmetic

The Batteries implementations of Rat.add, Rat.mul and Rat.div are
irreducible, so concrete runs of the engine could not be settled by
evaluation through them.  The engine's arithmetic is therefore
written with mkRat, which does reduce; qAdd_eq_add and qMul_eq_mul
identify these operations with the ordinary field operations. -/

/-- Addition of rationals by the textbook formula. -/
def qAdd (a b : ℚ) : ℚ :=
  mkRat (a.num * (b.den : ℤ) + b.num * (a.den : ℤ)) (a.den * b.den)

/-- Multiplication of rationals by the textbook formula. -/
def qMul (a b : ℚ) : ℚ :=
  mkRat (a.num * b.num) (a.den * b.den)

theorem qAdd_eq_add (a b : ℚ) : qAdd a b = a + b := by
  unfold qAdd
  rw [Rat.mkRat_eq_divInt, Rat.divInt_eq_div]
  have ha : ((a.den : ℚ)) ≠ 0 := by exact_mod_cast a.den_nz
  have hb : ((b.den : ℚ)) ≠ 0 := by exact_mod_cast b.den_nz
  push_cast
  conv_rhs => rw [← Rat.num_div_den a, ← Rat.num_div_den b]
  rw [div_add_div _ _ ha hb]
  ring_nf

theorem qMul_eq_mul (a b : ℚ) : qMul a b = a * b := by
  unfold qMul
  rw [Rat.mkRat_eq_divInt, Rat.divInt_eq_div]
  push_cast
  conv_rhs => rw [← Rat.num_div_den a, ← Rat.num_div_den b]
  rw [div_mul_div_comm]

/-! ## Exact representation of relevance scores

Relevance values produced by the engine are either rational constants
(1.0, 0.8, the conversational increments) or cosine similarities,
which are square roots of rationals.  Score represents both exactly;
Score.IsVal relates a Score to the real number it denotes, and the
boolean order Score.scoreLe is proved to coincide with the real
order, so the engine's float comparisons are modelled faithfully. -/

inductive Score where
  | q (a : ℚ)
  | s (m : ℚ)
  deriving DecidableEq

/-- The real number a Score denotes (Real.sqrt clamps negatives to 0,
and no negative radicand is ever produced by the engine). -/
def Score.IsVal : Score → ℝ → Prop
  | .q a, x => x = (a : ℝ)
  | .s m, x => x = Real.sqrt m

/-- Decidable order on scores, agreeing with the real order of the
denoted values (proved in scoreLe_iff_real). -/
def Score.scoreLe : Score → Score → Bool
  | .q a, .q b => decide (a ≤ b)
  | .q a, .s m => decide (a ≤ 0 ∨ qMul a a ≤ m)
  | .s m, .q a => decide (0 ≤ a ∧ m ≤ qMul a a)
  | .s m, .s m2 => decide (m ≤ m2 ∨ m ≤ 0)

/-- Strict order: models x < y on floats. -/
def Score.scoreLt (x y : Score) : Bool :=
  ! Score.scoreLe y x

/-- Math.max on scores: returns one of its arguments, the one with
the larger denoted value. -/
def Score.smax (x y : Score) : Score :=
  if Score.scoreLe x y then y else x

theorem Score.exists_isVal (x : Score) : ∃ r : ℝ, Score.IsVal x r := by
  cases x with
  | q a => exact ⟨(a : ℝ), rfl⟩
  | s m => exact ⟨Real.sqrt m, rfl⟩

theorem scoreLe_iff_real {x y : Score} {u v : ℝ}
    (hx : Score.IsVal x u) (hy : Score.IsVal y v) :
    Score.scoreLe x y = true ↔ u ≤ v := by
  cases x with
  | q a =>
    cases y with
    | q b =>
      simp only [Score.IsVal] at hx hy
      subst hx; subst hy
      simp [Score.scoreLe, Rat.cast_le]
    | s m =>
      simp only [Score.IsVal] at hx hy
      subst hx; subst hy
      simp only [Score.scoreLe, decide_eq_true_eq, qMul_eq_mul, ← pow_two]
      constructor
      · rintro (h | h)
        · exact le_trans (by exact_mod_cast h) (Real.sqrt_nonneg _)
        · exact Real.le_sqrt_of_sq_le (by exact_mod_cast h)
      · intro h
        rcases le_or_lt a 0 with ha | ha
        · exact Or.inl ha
        · refine Or.inr ?_
          have h2 : ((a : ℝ)) ^ 2 ≤ (m : ℝ) :=
            (Real.le_sqrt' (by exact_mod_cast ha)).mp h
          exact_mod_cast h2
  | s m =>
    cases y with
    | q b =>
      simp only [Score.IsVal] at hx hy
      subst hx; subst hy
      simp only [Score.scoreLe, decide_eq_true_eq, qMul_eq_mul, ← pow_two]
      rw [Real.sqrt_le_iff]
      constructor
      · rintro ⟨h1, h2⟩
        exact ⟨by exact_mod_cast h1, by exact_mod_cast h2⟩
      · rintro ⟨h1, h2⟩
        exact ⟨by exact_mod_cast h1, by exact_mod_cast h2⟩
    | s m2 =>
      simp only [Score.IsVal] at hx hy
      subst hx; subst hy
      simp only [Score.scoreLe, decide_eq_true_eq]
      constructor
      · rintro (h | h)
        · exact Real.sqrt_le_sqrt (by exact_mod_cast h)
        · calc Real.sqrt m = 0 := Real.sqrt_eq_zero_of_nonpos (by exact_mod_cast h)
            _ ≤ Real.sqrt m2 := Real.sqrt_nonneg _
      · intro h
        rcases le_or_lt m 0 with hm | hm
        · exact Or.inr hm
        · refine Or.inl ?_
          have hm2 : (0:ℝ) < Real.sqrt m := Real.sqrt_pos.mpr (by exact_mod_cast hm)
          have hpos : (0:ℝ) ≤ (m2 : ℝ) := by
            by_contra hneg
            push_neg at hneg
            have : Real.sqrt m2 = 0 := Real.sqrt_eq_zero_of_nonpos hneg.le
            rw [this] at h
            exact absurd h (not_le.mpr hm2)
          have := (Real.sqrt_le_sqrt_iff hpos).mp h
          exact_mod_cast this

theorem scoreLt_iff_real {x y : Score} {u v : ℝ}
    (hx : Score.IsVal x u) (hy : Score.IsVal y v) :
    Score.scoreLt x y = true ↔ u < v := by
  unfold Score.scoreLt
  rw [Bool.not_eq_true', ← not_le, ← scoreLe_iff_real hy hx]
  cases Score.scoreLe y x <;> simp

theorem scoreLe_total (x y : Score) :
    Score.scoreLe x y || Score.scoreLe y x := by
  obtain ⟨u, hu⟩ := Score.exists_isVal x
  obtain ⟨v, hv⟩ := Score.exists_isVal y
  rcases le_total u v with h | h
  · rw [(scoreLe_iff_real hu hv).mpr h]; simp
  · rw [(scoreLe_iff_real hv hu).mpr h]; simp

theorem scoreLe_trans {x y z : Score}
    (h1 : Score.scoreLe x y = true) (h2 : Score.scoreLe y z = true) :
    Score.scoreLe x z = true := by
  obtain ⟨u, hu⟩ := Score.exists_isVal x
  obtain ⟨v, hv⟩ := Score.exists_isVal y
  obtain ⟨w, hw⟩ := Score.exists_isVal z
  rw [scoreLe_iff_real hu hv] at h1
  rw [scoreLe_iff_real hv hw] at h2
  exact (scoreLe_iff_real hu hw).mpr (le_trans h1 h2)

theorem smax_isVal {x y : Score} {u v : ℝ}
    (hx : Score.IsVal x u) (hy : Score.IsVal y v) :
    Score.IsVal (Score.smax x y) (max u v) := by
  unfold Score.smax
  by_cases h : Score.scoreLe x y = true
  · rw [if_pos h]
    rw [scoreLe_iff_real hx hy] at h
    rwa [max_eq_right h]
  · rw [if_neg h]
    have := scoreLe_total x y
    rcases Bool.or_eq_true_iff.mp this with h1 | h1
    · exact absurd h1 h
    · rw [scoreLe_iff_real hy hx] at h1
      rwa [max_eq_left h1]

/-! ## Stable sorting

results.sort((a, b) => b.relevance - a.relevance) is a stable sort
(guaranteed by the ECMAScript specification).  Any stable sorting
algorithm determines the same output list, so the engine's sort is
modelled by a structurally recursive stable insertion sort, which —
unlike the well-founded mergeSort of the library — also reduces by
evaluation on concrete inputs. -/

/-- Insert a in front of the first element it may precede. -/
def insertRanked (le : α → α → Bool) (a : α) : List α → List α
  | [] => [a]
  | y :: ys => if le a y then a :: y :: ys else y :: insertRanked le a ys

/-- Stable insertion sort with respect to le. -/
def stableSortBy (le : α → α → Bool) : List α → List α
  | [] => []
  | a :: rest => insertRanked le a (stableSortBy le rest)

theorem length_insertRanked (le : α → α → Bool) (a : α) (l : List α) :
    (insertRanked le a l).length = l.length + 1 := by
  induction l with
  | nil => rfl
  | cons y ys ih =>
    unfold insertRanked
    split
    · rfl
    · simp [ih]

theorem length_stableSortBy (le : α → α → Bool) (l : List α) :
    (stableSortBy le l).length = l.length := by
  induction l with
  | nil => rfl
  | cons a rest ih =>
    unfold stableSortBy
    rw [length_insertRanked, ih]
    simp

theorem mem_insertRanked {le : α → α → Bool} {a x : α} {l : List α} :
    x ∈ insertRanked le a l ↔ x = a ∨ x ∈ l := by
  induction l with
  | nil => simp [insertRanked]
  | cons y ys ih =>
    unfold insertRanked
    split
    · simp
    · simp only [List.mem_cons, ih]
      tauto

theorem mem_stableSortBy {le : α → α → Bool} {x : α} {l : List α} :
    x ∈ stableSortBy le l ↔ x ∈ l := by
  induction l with
  | nil => simp [stableSortBy]
  | cons a rest ih =>
    unfold stableSortBy
    rw [mem_insertRanked, ih, List.mem_cons]

theorem pairwise_insertRanked {le : α → α → Bool}
    (htrans : ∀ x y z, le x y = true → le y z = true → le x z = true)
    (htotal : ∀ x y, le x y || le y x) (a : α) (l : List α)
    (h : l.Pairwise (fun x y => le x y = true)) :
    (insertRanked le a l).Pairwise (fun x y => le x y = true) := by
  induction l with
  | nil => simp [insertRanked]
  | cons y ys ih =>
    unfold insertRanked
    rcases List.pairwise_cons.mp h with ⟨hy, hys⟩
    split
    · next hle =>
      apply List.pairwise_cons.mpr
      refine ⟨?_, h⟩
      intro z hz
      rcases List.mem_cons.mp hz with hz1 | hz2
      · rw [hz1]; exact hle
      · exact htrans a y z hle (hy z hz2)
    · next hnle =>
      apply List.pairwise_cons.mpr
      constructor
      · intro z hz
        rcases mem_insertRanked.mp hz with hz1 | hz2
        · rw [hz1]
          rcases Bool.or_eq_true_iff.mp (htotal a y) with h1 | h1
          · exact absurd h1 hnle
          · exact h1
        · exact hy z hz2
      · exact ih hys

theorem pairwise_stableSortBy {le : α → α → Bool}
    (htrans : ∀ x y z, le x y = true → le y z = true → le x z = true)
    (htotal : ∀ x y, le x y || le y x) (l : List α) :
    (stableSortBy le l).Pairwise (fun x y => le x y = true) := by
  induction l with
  | nil => simp [stableSortBy]
  | cons a rest ih =>
    exact pairwise_insertRanked htrans htotal a _ ih

/-! ## Data model (src/types.ts and the engine's own interfaces) -/

/-- PersonInfo from src/types.ts. -/
structure PersonInfo where
  name : String
  department : String
  skills : List String
  qualifications : List String
  selfPR : String
  experience : String
  yearsOfExperience : ℕ
  deriving DecidableEq

/-- The four chunk facet types. -/
inductive ChunkType where
  | basic
  | skills
  | experience
  | qualifications
  deriving DecidableEq

/-- Filterable metadata copied onto every chunk. -/
structure ChunkMeta where
  department : String
  skills : List String
  qualifications : List String
  yearsOfExperience : ℕ
  deriving DecidableEq

/-- Chunk from the engine. -/
structure Chunk where
  id : String
  content : String
  personId : String
  personName : String
  chunkType : ChunkType
  metadata : ChunkMeta
  deriving DecidableEq

/-- Match-type tags of AdvancedSearchResult. -/
inductive MatchType where
  | exact
  | similar
  | category
  | aggregation
  deriving DecidableEq

/-- AdvancedSearchResult. -/
structure AdvResult where
  person : PersonInfo
  relevance : Score
  matchedChunks : List Chunk
  explanation : String
  matchType : MatchType
  deriving DecidableEq

/-- Tag of AggregationResult. -/
inductive AggType where
  | count
  | list
  | statistics
  deriving DecidableEq

/-- Department statistics returned by analyzeDepartments: counts and
accumulated skills per department in first-appearance order, plus the
total.  JS objects with string keys preserve insertion order, modelled
as association lists. -/
structure DeptStats where
  counts : List (String × ℕ)
  skills : List (String × List String)
  total : ℕ
  deriving DecidableEq

/-- Skill statistics returned by analyzeSkills. -/
structure SkillStats where
  counts : List (String × ℕ)
  departments : List (String × List String)
  total : ℕ
  deriving DecidableEq

/-- Experience statistics returned by analyzeExperience. -/
structure ExpStats where
  average : ℚ
  max : ℕ
  min : ℕ
  total : ℕ
  deriving DecidableEq

/-- The value field of AggregationResult (number | string[] | object). -/
inductive AggValue where
  | num (n : ℕ)
  | strs (l : List String)
  | dept (d : DeptStats)
  | skill (s : SkillStats)
  | exper (e : ExpStats)
  deriving DecidableEq

/-- AggregationResult.  The untyped details payload of the source is
debugging data duplicating value and is not modelled. -/
structure AggregationResult where
  type : AggType
  value : AggValue
  description : String
  deriving DecidableEq

/-- The four query intent categories. -/
inductive QueryType where
  | exact_search
  | fuzzy_search
  | analytical
  | general_question
  deriving DecidableEq

/-- The record returned by search. -/
structure SearchOutput where
  results : List AdvResult
  aggregation : Option AggregationResult
  queryType : QueryType
  shouldUseGemini : Bool
  deriving DecidableEq

/-- Decidable equality of search outcomes (Except has no derived
instance). -/
instance : DecidableEq (Except String SearchOutput) :=
  fun a b =>
    match a, b with
    | Except.ok x, Except.ok y => decidable_of_iff (x = y) (by simp)
    | Except.error x, Except.error y => decidable_of_iff (x = y) (by simp)
    | Except.ok _, Except.error _ => isFalse (by simp)
    | Except.error _, Except.ok _ => isFalse (by simp)

/-- Engine state: the record store and its derived chunks. -/
structure Store where
  persons : List PersonInfo
  chunks : List Chunk
  deriving DecidableEq

/-! ## Chunker -/

/-- List of (index, element) pairs, modelling forEach with index. -/
def enumFrom : ℕ → List α → List (ℕ × α)
  | _, [] => []
  | n, a :: as => (n, a) :: enumFrom (n + 1) as

/-- person_${personIndex} id prefix of all of one record's chunks. -/
def personIdOf (i : ℕ) : String :=
  "person_" ++ toString i

/-- The metadata object built identically in all four chunk kinds. -/
def metaOf (p : PersonInfo) : ChunkMeta :=
  ⟨p.department, p.skills, p.qualifications, p.yearsOfExperience⟩

/-- The chunks one record contributes: a basic chunk always, a skills
chunk if skills are non-empty, an experience chunk if the experience
text is non-empty (JS truthiness on a string), a qualifications chunk
if qualifications are non-empty. -/
def personChunksOf (i : ℕ) (p : PersonInfo) : List Chunk :=
  ⟨personIdOf i ++ "_basic",
    p.name ++ "は" ++ p.department ++ "に所属しています。" ++ p.selfPR,
    personIdOf i, p.name, ChunkType.basic, metaOf p⟩ ::
  ((if p.skills ≠ [] then
      [⟨personIdOf i ++ "_skills",
        p.name ++ "のスキル: " ++ String.intercalate ", " p.skills,
        personIdOf i, p.name, ChunkType.skills, metaOf p⟩]
    else []) ++
   (if p.experience ≠ "" then
      [⟨personIdOf i ++ "_experience",
        p.name ++ "の開発経験: " ++ p.experience ++ "（" ++ toString p.yearsOfExperience ++ "年）",
        personIdOf i, p.name, ChunkType.experience, metaOf p⟩]
    else []) ++
   (if p.qualifications ≠ [] then
      [⟨personIdOf i ++ "_qualifications",
        p.name ++ "の資格: " ++ String.intercalate ", " p.qualifications,
        personIdOf i, p.name, ChunkType.qualifications, metaOf p⟩]
    else []))

/-- createChunks: every record's chunks in record order. -/
def createChunks (persons : List PersonInfo) : List Chunk :=
  (enumFrom 0 persons).flatMap (fun ip => personChunksOf ip.1 ip.2)

/-- The initialize method (the name is a Lean keyword): replaces the
store and rebuilds all chunks. -/
def initializeEngine (persons : List PersonInfo) : Store :=
  ⟨persons, createChunks persons⟩

/-! ## Query classifier (analyzeQueryType) -/

/-- Exact-search keyword tier. -/
def exactKeywords : List String :=
  ["python", "java", "javascript", "react", "vue", "angular", "node", "aws", "azure", "gcp",
   "docker", "kubernetes", "sql", "mongodb", "redis", "html", "css", "php", "ruby", "go",
   "開発部", "インフラ部", "デザイン部", "営業部", "企画部", "人事部", "総務部",
   "資格", "経験", "年数", "スキル", "技術", "プログラミング", "コーディング"]

/-- Analytical keyword tier. -/
def analyticalKeywords : List String :=
  ["何人", "人数", "優秀", "経験", "年数", "多い", "少ない", "平均", "統計", "分析",
   "トップ", "ベスト", "最優秀", "最高", "最低", "比較", "ランキング", "順位",
   "どのくらい", "どれくらい", "何割", "何パーセント", "割合", "比率"]

/-- General keyword tier. -/
def generalKeywords : List String :=
  ["部署", "何がある", "どんな", "特徴", "傾向", "比較", "リスト", "一覧",
   "紹介", "教えて", "説明", "詳細", "概要", "まとめ", "サマリー",
   "会社", "組織", "チーム", "メンバー", "社員", "従業員"]

/-- Conversational keyword tier of the classifier. -/
def conversationalKeywords : List String :=
  ["おすすめ", "お勧め", "推奨", "適任", "向いている", "得意", "専門",
   "詳しい", "詳しく", "詳しい人", "専門家", "エキスパート", "ベテラン",
   "若手", "新人", "中堅", "シニア", "リーダー", "マネージャー",
   "できる", "可能", "対応", "対応可能", "対応している", "担当"]

/-- The classifier: four keyword tiers tested in a fixed order (exact,
conversational, analytical, general), defaulting to fuzzy_search. -/
def analyzeQueryType (query : String) : QueryType :=
  let ql := jsToLower query
  if exactKeywords.any (fun k => jsIncludes ql k) then QueryType.exact_search
  else if conversationalKeywords.any (fun k => jsIncludes ql k) then QueryType.general_question
  else if analyticalKeywords.any (fun k => jsIncludes ql k) then QueryType.analytical
  else if generalKeywords.any (fun k => jsIncludes ql k) then QueryType.general_question
  else QueryType.fuzzy_search

/-! ## Cosine similarity

calculateCosineSimilarity returns dot / (sqrt qmag * sqrt tmag) with
nonnegative integer dot, qmag, tmag, i.e. the square root of the
rational dot^2 / (qmag * tmag); cosineSimSq computes that radicand
exactly, so the similarity is Score.s of it. -/

/-- The union word set both frequency vectors are summed over. -/
def wordSet (a b : String) : Finset String :=
  (normWords a).toFinset ∪ (normWords b).toFinset

/-- The dot product of the two token-frequency vectors. -/
def dotProduct (a b : String) : ℕ :=
  ∑ w ∈ wordSet a b, (normWords a).count w * (normWords b).count w

/-- The squared magnitude of the first argument's frequency vector
(summed over the union set, as in the source; words outside the first
argument contribute 0). -/
def magSq (a b : String) : ℕ :=
  ∑ w ∈ wordSet a b, (normWords a).count w * (normWords a).count w

/-- The squared value of calculateCosineSimilarity.  The returned
similarity is dot / (sqrt qmag * sqrt tmag) with nonnegative integer
numerator, i.e. the square root of this rational.  The degenerate
branches (no words, zero magnitude) return 0 in the source and 0 here. -/
def cosineSimSq (qs ts : String) : ℚ :=
  if words qs = [] ∨ words ts = [] then 0
  else if magSq qs ts = 0 ∨ magSq ts qs = 0 then 0
  else mkRat ((dotProduct qs ts * dotProduct qs ts : ℕ) : ℤ) (magSq qs ts * magSq ts qs)

/-! ## Per-record scoring -/

/-- The four direct containment tests of checkExactMatch that yield
score 1.0 (department, any skill, any qualification, name). -/
def exactContainment (query : String) (p : PersonInfo) : Bool :=
  jsIncludes query (jsToLower p.department) ||
  p.skills.any (fun sk => jsIncludes query (jsToLower sk)) ||
  p.qualifications.any (fun ql => jsIncludes query (jsToLower ql)) ||
  jsIncludes query (jsToLower p.name)

/-- Math.max on rationals, written with the kernel-computable order
test so that concrete runs of the scorer reduce by evaluation. -/
def ratMax (a b : ℚ) : ℚ :=
  if a ≤ b then b else a

/-- checkPartialMatch: bidirectional containment against department,
skills and qualifications, each contributing 0.8 to a running max. -/
def checkPartialMatch (query : String) (p : PersonInfo) : ℚ :=
  let m0 : ℚ := 0
  let m1 := if jsIncludes (jsToLower p.department) query || jsIncludes query (jsToLower p.department)
    then ratMax m0 (mkRat 8 10) else m0
  let m2 := if p.skills.any (fun sk => jsIncludes (jsToLower sk) query || jsIncludes query (jsToLower sk))
    then ratMax m1 (mkRat 8 10) else m1
  if p.qualifications.any (fun ql => jsIncludes (jsToLower ql) query || jsIncludes query (jsToLower ql))
    then ratMax m2 (mkRat 8 10) else m2

/-- checkExactMatch: 1.0 on direct containment, else the partial score
when it exceeds 0.7, else 0. -/
def checkExactMatch (query : String) (p : PersonInfo) : ℚ :=
  if exactContainment query p then 1
  else
    let pm := checkPartialMatch query p
    if pm > mkRat 7 10 then pm else 0

/-- Keyword list of isConversationalQuery (distinct from the
classifier's conversational tier). -/
def convQueryKeywords : List String :=
  ["おすすめ", "推奨", "適任", "向いている", "得意", "専門",
   "詳しい", "詳しく", "専門家", "エキスパート", "ベテラン",
   "若手", "新人", "中堅", "シニア", "リーダー", "マネージャー",
   "できる", "可能", "対応", "対応可能", "対応している", "担当",
   "メンター", "指導", "成長", "優秀", "経験豊富"]

/-- isConversationalQuery. -/
def isConversationalQuery (query : String) : Bool :=
  convQueryKeywords.any (fun k => jsIncludes query k)

/-- calculateConversationalScore: additive heuristic increments. -/
def calculateConversationalScore (query : String) (p : PersonInfo) : ℚ :=
  let s0 : ℚ := 0
  let s1 := if jsIncludes query "ベテラン" || jsIncludes query "シニア" || jsIncludes query "経験豊富" then
      (if p.yearsOfExperience ≥ 5 then qAdd s0 (mkRat 3 10)
       else if p.yearsOfExperience ≥ 3 then qAdd s0 (mkRat 2 10) else s0)
    else s0
  let s2 := if jsIncludes query "若手" || jsIncludes query "新人" then
      (if p.yearsOfExperience ≤ 2 then qAdd s1 (mkRat 3 10)
       else if p.yearsOfExperience ≤ 3 then qAdd s1 (mkRat 2 10) else s1)
    else s1
  let s3 := if jsIncludes query "複数" || jsIncludes query "多様" then
      (if p.skills.length ≥ 3 then qAdd s2 (mkRat 2 10) else s2)
    else s2
  let s4 := if jsIncludes query "資格" || jsIncludes query "認定" then
      (if p.qualifications.length > 0 then qAdd s3 (mkRat 2 10) else s3)
    else s3
  let s5 := if jsIncludes query "開発" && jsIncludes p.department "開発" then qAdd s4 (mkRat 3 10) else s4
  let s6 := if jsIncludes query "インフラ" && jsIncludes p.department "インフラ" then qAdd s5 (mkRat 3 10) else s5
  if jsIncludes query "デザイン" && jsIncludes p.department "デザイン" then qAdd s6 (mkRat 3 10) else s6

/-- determineMatchType. -/
def determineMatchType (query : String) (p : PersonInfo) (relevance : Score) : MatchType :=
  if Score.scoreLe (Score.q 1) relevance then MatchType.exact
  else if jsIncludes query (jsToLower p.name) then MatchType.exact
  else if jsIncludes query (jsToLower p.department) then MatchType.exact
  else if p.skills.any (fun sk => jsIncludes query (jsToLower sk)) then MatchType.exact
  else if p.qualifications.any (fun ql => jsIncludes query (jsToLower ql)) then MatchType.exact
  else if Score.scoreLt (Score.q (mkRat 6 10)) relevance then MatchType.similar
  else MatchType.category

/-- generateExplanation: qualitative label from score thresholds. -/
def generateExplanation (relevance : Score) : String :=
  if Score.scoreLt (Score.q (mkRat 8 10)) relevance then "非常に高い関連性"
  else if Score.scoreLt (Score.q (mkRat 6 10)) relevance then "高い関連性"
  else if Score.scoreLt (Score.q (mkRat 4 10)) relevance then "中程度の関連性"
  else "低い関連性"

/-- One step of the per-chunk cosine loop: a chunk whose similarity
exceeds 0.05 is recorded and enters the running maximum. -/
def cosineAccum (queryLower : String) (acc : Score × List Chunk) (c : Chunk) : Score × List Chunk :=
  let simSq := cosineSimSq queryLower (jsToLower c.content)
  if Score.scoreLt (Score.q (mkRat 5 100)) (Score.s simSq) then
    (Score.smax acc.1 (Score.s simSq), acc.2 ++ [c])
  else acc

/-- The lexical part of one record's scoring: exact/partial match
from checkExactMatch if positive (all of the record's chunks count as
matched then), otherwise the per-chunk cosine loop. -/
def lexicalScore (store : Store) (queryLower : String) (i : ℕ) (p : PersonInfo) : Score × List Chunk :=
  let personChunks := store.chunks.filter (fun c => c.personId == personIdOf i)
  let em := checkExactMatch queryLower p
  if em > 0 then (Score.q em, personChunks)
  else personChunks.foldl (cosineAccum queryLower) (Score.q 0, [])

/-- The final relevance of one record: the lexical score, maxed with
the conversational score when the query is conversational. -/
def personRelevance (store : Store) (queryLower : String) (i : ℕ) (p : PersonInfo) : Score :=
  let lex := (lexicalScore store queryLower i p).1
  if isConversationalQuery queryLower then
    Score.smax lex (Score.q (calculateConversationalScore queryLower p))
  else lex

/-- One record's search result; none when the relevance is 0 (only
strictly positive scores are pushed). -/
def scoreOne (store : Store) (queryLower : String) (ip : ℕ × PersonInfo) : Option AdvResult :=
  let rel := personRelevance store queryLower ip.1 ip.2
  if Score.scoreLt (Score.q 0) rel then
    some ⟨ip.2, rel, (lexicalScore store queryLower ip.1 ip.2).2,
      generateExplanation rel, determineMatchType queryLower ip.2 rel⟩
  else none

/-- All scored records in store order, before sorting and truncation. -/
def scoredCandidates (store : Store) (query : String) : List AdvResult :=
  (enumFrom 0 store.persons).filterMap (scoreOne store (jsToLower query))

/-- The comparator of results.sort((a, b) => b.relevance - a.relevance):
a may precede b exactly when a's relevance is at least b's. -/
def resultOrder (a b : AdvResult) : Bool :=
  Score.scoreLe b.relevance a.relevance

/-- performSearch: score every record, sort by descending relevance
(stably, as JS sort), return the top 5. -/
def performSearch (store : Store) (query : String) : List AdvResult :=
  (stableSortBy resultOrder (scoredCandidates store query)).take 5

/-! ## Aggregation detection and statistics -/

/-- A department count aggregation with a fixed label: the value
counts records whose department contains the token. -/
def deptCountAgg (store : Store) (label token : String) : AggregationResult :=
  let count := (store.persons.filter (fun p => jsIncludes p.department token)).length
  ⟨AggType.count, AggValue.num count,
    label ++ "に所属している人は" ++ toString count ++ "人です。"⟩

/-- The fixed skill keyword list of the skill-count aggregation. -/
def aggSkillKeywords : List String :=
  ["python", "javascript", "java", "react", "aws", "docker"]

/-- The skill-count branch: for スキル plus 何人 queries, the first
listed skill keyword occurring in the query is counted over records
whose (lowercased) skills contain it. -/
def detectSkillAgg (store : Store) (ql : String) : Option AggregationResult :=
  if jsIncludes ql "スキル" && jsIncludes ql "何人" then
    match aggSkillKeywords.find? (fun sk => jsIncludes ql sk) with
    | some sk =>
      let count := (store.persons.filter
        (fun p => p.skills.any (fun s => jsIncludes (jsToLower s) sk))).length
      some ⟨AggType.count, AggValue.num count,
        sk ++ "スキルを持つ人は" ++ toString count ++ "人です。"⟩
    | none => none
  else none

/-- detectAggregationQuery: Japanese count patterns over the three
fixed departments, then the skill-count branch, else none. -/
def detectAggregationQuery (store : Store) (query : String) : Option AggregationResult :=
  let ql := jsToLower query
  if jsIncludes ql "何人" || jsIncludes ql "人数" then
    if jsIncludes ql "開発部" then some (deptCountAgg store "開発部" "開発")
    else if jsIncludes ql "インフラ" then some (deptCountAgg store "インフラ部" "インフラ")
    else if jsIncludes ql "デザイン" then some (deptCountAgg store "デザイン部" "デザイン")
    else detectSkillAgg store ql
  else detectSkillAgg store ql

/-- Increment a string-keyed counter, appending new keys at the end:
models JS object insertion order. -/
def bumpCount (key : String) : List (String × ℕ) → List (String × ℕ)
  | [] => [(key, 1)]
  | (k, v) :: rest =>
    if k = key then (k, v + 1) :: rest else (k, v) :: bumpCount key rest

/-- Append values to a string-keyed list entry, inserting at the end
when the key is new. -/
def appendEntry (key : String) (vs : List String) : List (String × List String) → List (String × List String)
  | [] => [(key, vs)]
  | (k, v) :: rest =>
    if k = key then (k, v ++ vs) :: rest else (k, v) :: appendEntry key vs rest

/-- Record a department under a skill, skipping duplicates (the
source tests includes before pushing). -/
def addSkillDept (dept key : String) : List (String × List String) → List (String × List String)
  | [] => [(key, [dept])]
  | (k, v) :: rest =>
    if k = key then (k, if dept ∈ v then v else v ++ [dept]) :: rest
    else (k, v) :: addSkillDept dept key rest

/-- analyzeDepartments: per-department person counts and accumulated
skills, in first-appearance order. -/
def analyzeDepartments (store : Store) : DeptStats :=
  let cs := store.persons.foldl
    (fun acc p => (bumpCount p.department acc.1, appendEntry p.department p.skills acc.2))
    ([], [])
  ⟨cs.1, cs.2, store.persons.length⟩

/-- analyzeSkills: per-skill holder counts and the departments the
holders belong to. -/
def analyzeSkills (store : Store) : SkillStats :=
  let cs := store.persons.foldl
    (fun acc p => p.skills.foldl
      (fun acc2 sk => (bumpCount sk acc2.1, addSkillDept p.department sk acc2.2)) acc)
    ([], [])
  ⟨cs.1, cs.2, store.persons.length⟩

/-- Math.round(x * 10) / 10 (half rounds up; all inputs here are
nonnegative). -/
def roundTenth (x : ℚ) : ℚ :=
  ((⌊x * 10 + (1 : ℚ) / 2⌋ : ℤ) : ℚ) / 10

/-- analyzeExperience.  On an empty store the JS source produces
NaN/±Infinity statistics (never a crash); this model returns 0 there,
a deviation on dead values only: the branch that displays them is
unreachable from search, because 経験 and 年数 are exact-search
keywords and preempt the analytical classification. -/
def analyzeExperience (store : Store) : ExpStats :=
  let years := store.persons.map (fun p => p.yearsOfExperience)
  let sum : ℕ := years.foldl (fun a b => a + b) 0
  let average := (sum : ℚ) / (years.length : ℚ)
  ⟨roundTenth average, (years.max?).getD 0, (years.min?).getD 0, store.persons.length⟩

/-- First-occurrence deduplication: models Array.from(new Set(...)). -/
def firstDedup (l : List String) : List String :=
  l.foldl (fun acc x => if x ∈ acc then acc else acc ++ [x]) []

/-- getUniqueDepartments. -/
def getUniqueDepartments (store : Store) : List String :=
  firstDedup (store.persons.map (fun p => p.department))

/-- getUniqueSkills. -/
def getUniqueSkills (store : Store) : List String :=
  firstDedup (store.persons.flatMap (fun p => p.skills))

/-- Render one time the rational produced by roundTenth the way JS
renders the float (integers print without a decimal point). -/
def fmtRatTenth (x : ℚ) : String :=
  let t : ℤ := (x * 10).num
  if t % 10 = 0 then toString (t / 10)
  else toString (t / 10) ++ "." ++ toString (t % 10)

/-- formatDepartmentAnalysis.  When the query mentions 優秀 and the
store is empty, the source indexes [0] of an empty sorted array and
throws a TypeError; that is the error case here. -/
def formatDepartmentAnalysis (stats : DeptStats) (query : String) : Except String String :=
  let body := stats.counts.foldl (fun d kv =>
    let deptSkills := ((stats.skills.find? (fun e => e.1 = kv.1)).map Prod.snd).getD []
    d ++ kv.1 ++ ": " ++ toString kv.2 ++ "人\n" ++
      "  主なスキル: " ++ String.intercalate ", " ((firstDedup deptSkills).take 3) ++ "\n\n")
    "部署別の分析結果：\n\n"
  if jsIncludes query "優秀" then
    match stableSortBy (fun a b => decide (b.2 ≤ a.2)) stats.counts with
    | [] => Except.error "TypeError: Cannot read properties of undefined (reading 0)"
    | top :: _ =>
      Except.ok (body ++ "最も人数が多い部署は" ++ top.1 ++ "（" ++ toString top.2 ++ "人）です。")
  else Except.ok body

/-- formatSkillAnalysis, with the same TypeError on 優秀 plus an
empty skill table. -/
def formatSkillAnalysis (stats : SkillStats) (query : String) : Except String String :=
  let sorted := stableSortBy (fun a b => decide (b.2 ≤ a.2)) stats.counts
  let body := (sorted.take 5).foldl (fun d kv =>
    let depts := ((stats.departments.find? (fun e => e.1 = kv.1)).map Prod.snd).getD []
    d ++ kv.1 ++ ": " ++ toString kv.2 ++ "人が保有\n" ++
      "  部署: " ++ String.intercalate ", " depts ++ "\n\n")
    "スキル別の分析結果：\n\n"
  if jsIncludes query "優秀" then
    match sorted with
    | [] => Except.error "TypeError: Cannot read properties of undefined (reading 0)"
    | top :: _ =>
      Except.ok (body ++ "最も多くの人が保有しているスキルは" ++ top.1 ++ "（" ++ toString top.2 ++ "人）です。")
  else Except.ok body

/-- formatExperienceAnalysis (total). -/
def formatExperienceAnalysis (store : Store) (stats : ExpStats) (query : String) : String :=
  let d := "経験年数の分析結果：\n\n" ++
    "平均経験年数: " ++ fmtRatTenth stats.average ++ "年\n" ++
    "最高経験年数: " ++ toString stats.max ++ "年\n" ++
    "最低経験年数: " ++ toString stats.min ++ "年\n" ++
    "総人数: " ++ toString stats.total ++ "人\n\n"
  if jsIncludes query "優秀" then
    d ++ "平均以上の経験を持つ人は" ++
      toString ((store.persons.filter (fun p => (p.yearsOfExperience : ℚ) ≥ stats.average)).length) ++
      "人です。"
  else d

/-- findTopPerformers: composite 0.3/0.2/0.1 weighting, top 3. -/
def findTopPerformers (store : Store) : List AdvResult :=
  let scored := store.persons.map (fun p =>
    let total : ℚ := qAdd (qAdd (qMul (p.skills.length : ℚ) (mkRat 3 10))
      (qMul (p.qualifications.length : ℚ) (mkRat 2 10))) (qMul (p.yearsOfExperience : ℚ) (mkRat 1 10))
    (⟨p, Score.q total, [],
      "スキル: " ++ toString p.skills.length ++ "個, 資格: " ++ toString p.qualifications.length ++
        "個, 経験: " ++ toString p.yearsOfExperience ++ "年",
      MatchType.similar⟩ : AdvResult))
  (stableSortBy resultOrder scored).take 3

/-! ## Orchestrator -/

/-- handleExactSearch. -/
def handleExactSearch (store : Store) (query : String) : SearchOutput :=
  let results := performSearch store query
  ⟨results, none, QueryType.exact_search, results.isEmpty⟩

/-- handleFuzzySearch. -/
def handleFuzzySearch (store : Store) (query : String) : SearchOutput :=
  let results := performSearch store query
  ⟨results, none, QueryType.fuzzy_search, results.isEmpty⟩

/-- handleAnalyticalQuery; the department and skill formatters can
throw, which propagates out of the (async) search as a rejection. -/
def handleAnalyticalQuery (store : Store) (query : String) : Except String SearchOutput :=
  let ql := jsToLower query
  if jsIncludes ql "部署" && (jsIncludes ql "何人" || jsIncludes ql "優秀") then
    let stats := analyzeDepartments store
    match formatDepartmentAnalysis stats ql with
    | Except.error e => Except.error e
    | Except.ok desc =>
      Except.ok ⟨[], some ⟨AggType.statistics, AggValue.dept stats, desc⟩, QueryType.analytical, false⟩
  else if jsIncludes ql "スキル" || jsIncludes ql "技術" then
    let stats := analyzeSkills store
    match formatSkillAnalysis stats ql with
    | Except.error e => Except.error e
    | Except.ok desc =>
      Except.ok ⟨[], some ⟨AggType.statistics, AggValue.skill stats, desc⟩, QueryType.analytical, false⟩
  else if jsIncludes ql "経験" || jsIncludes ql "年数" then
    let stats := analyzeExperience store
    Except.ok ⟨[], some ⟨AggType.statistics, AggValue.exper stats,
      formatExperienceAnalysis store stats ql⟩, QueryType.analytical, false⟩
  else if jsIncludes ql "優秀" then
    Except.ok ⟨findTopPerformers store, none, QueryType.analytical, false⟩
  else
    Except.ok ⟨[], none, QueryType.analytical, true⟩

/-- handleGeneralQuestion. -/
def handleGeneralQuestion (store : Store) (query : String) : SearchOutput :=
  let ql := jsToLower query
  if jsIncludes ql "部署" && jsIncludes ql "何がある" then
    let departments := getUniqueDepartments store
    ⟨[], some ⟨AggType.list, AggValue.strs departments,
      "当社には以下の部署があります：\n" ++ String.intercalate "\n" departments⟩,
      QueryType.general_question, false⟩
  else if jsIncludes ql "スキル" || jsIncludes ql "技術" then
    let skills := getUniqueSkills store
    ⟨[], some ⟨AggType.list, AggValue.strs skills,
      "社員が持っているスキルは以下の通りです：\n" ++ String.intercalate "\n" skills⟩,
      QueryType.general_question, false⟩
  else if jsIncludes ql "おすすめ" || jsIncludes ql "推奨" || jsIncludes ql "適任" then
    ⟨performSearch store query, none, QueryType.general_question, true⟩
  else if jsIncludes ql "専門" || jsIncludes ql "エキスパート" || jsIncludes ql "詳しい" then
    ⟨performSearch store query, none, QueryType.general_question, true⟩
  else if jsIncludes ql "メンター" || jsIncludes ql "指導" || jsIncludes ql "新人" then
    ⟨performSearch store query, none, QueryType.general_question, true⟩
  else if jsIncludes ql "若手" || jsIncludes ql "ベテラン" || jsIncludes ql "シニア" then
    ⟨performSearch store query, none, QueryType.general_question, true⟩
  else
    ⟨[], none, QueryType.general_question, true⟩

/-- The search entry point: classify, try aggregation patterns, then
dispatch on the classification. -/
def search (store : Store) (query : String) : Except String SearchOutput :=
  match detectAggregationQuery store query with
  | some agg => Except.ok ⟨[], some agg, analyzeQueryType query, false⟩
  | none =>
    match analyzeQueryType query with
    | QueryType.exact_search => Except.ok (handleExactSearch store query)
    | QueryType.fuzzy_search => Except.ok (handleFuzzySearch store query)
    | QueryType.analytical => handleAnalyticalQuery store query
    | QueryType.general_question => Except.ok (handleGeneralQuestion store query)

/-- formatResults: aggregation description verbatim when present, a
fixed no-results string on an empty list, else enumerated blocks. -/
def formatResults (results : List AdvResult) (aggregation : Option AggregationResult) : String :=
  match aggregation with
  | some agg => agg.description
  | none =>
    if results.length = 0 then "検索条件に一致する結果が見つかりませんでした。"
    else
      String.intercalate "\n\n" ((enumFrom 0 results).map (fun ir =>
        toString (ir.1 + 1) ++ ". " ++ ir.2.person.name ++
        "\n   部署: " ++ ir.2.person.department ++
        "\n   スキル: " ++ String.intercalate ", " ir.2.person.skills ++
        "\n   資格: " ++ String.intercalate ", " ir.2.person.qualifications ++
        "\n   経験: " ++ ir.2.person.experience ++
        "\n   関連性: " ++ ir.2.explanation))

/-! ## Basic lemmas about the embedding -/

theorem string_eq_empty_of_data {s : String} (h : s.data = []) : s = "" := by
  cases s with
  | mk d => cases h; rfl

theorem jsIncludes_hay_empty (t : String) : jsIncludes t "" = true := by
  unfold jsIncludes
  cases h : t.data with
  | nil => rfl
  | cons c cs => simp [occursIn, startsWith]

theorem jsIncludes_empty_hay {t : String} (h : t ≠ "") : jsIncludes "" t = false := by
  unfold jsIncludes
  cases ht : t.data with
  | nil => exact absurd (string_eq_empty_of_data ht) h
  | cons c cs => simp [occursIn, startsWith, ht]

theorem jsToLower_ne_empty {s : String} (h : s ≠ "") : jsToLower s ≠ "" := by
  intro hc
  apply h
  have hd := congrArg String.data hc
  simp only [jsToLower] at hd
  exact string_eq_empty_of_data (List.map_eq_nil_iff.mp hd)

theorem scoreLe_refl (x : Score) : Score.scoreLe x x = true := by
  obtain ⟨u, hu⟩ := Score.exists_isVal x
  exact (scoreLe_iff_real hu hu).mpr le_rfl

theorem scoreLe_smax_left (x y : Score) : Score.scoreLe x (Score.smax x y) = true := by
  unfold Score.smax
  by_cases h : Score.scoreLe x y = true
  · rw [if_pos h]; exact h
  · rw [if_neg h]; exact scoreLe_refl x

theorem scoreLt_of_lt_of_le {x y z : Score}
    (h1 : Score.scoreLt x y = true) (h2 : Score.scoreLe y z = true) :
    Score.scoreLt x z = true := by
  obtain ⟨u, hu⟩ := Score.exists_isVal x
  obtain ⟨v, hv⟩ := Score.exists_isVal y
  obtain ⟨w, hw⟩ := Score.exists_isVal z
  rw [scoreLt_iff_real hu hv] at h1
  rw [scoreLe_iff_real hv hw] at h2
  exact (scoreLt_iff_real hu hw).mpr (lt_of_lt_of_le h1 h2)

/-- Results a before b in sorted order means b's real relevance is at
most a's. -/
def RelGe (a b : AdvResult) : Prop :=
  ∀ x y : ℝ, Score.IsVal a.relevance x → Score.IsVal b.relevance y → y ≤ x

theorem resultOrder_trans (a b c : AdvResult)
    (h1 : resultOrder a b = true) (h2 : resultOrder b c = true) :
    resultOrder a c = true :=
  scoreLe_trans h2 h1

theorem resultOrder_total (a b : AdvResult) :
    resultOrder a b || resultOrder b a :=
  scoreLe_total b.relevance a.relevance

theorem pairwise_relGe_stableSort (l : List AdvResult) :
    (stableSortBy resultOrder l).Pairwise RelGe := by
  have hs := pairwise_stableSortBy resultOrder_trans resultOrder_total l
  exact hs.imp (fun h x y hx hy => (scoreLe_iff_real hy hx).mp h)

theorem pairwise_relGe_sortTake (l : List AdvResult) (n : ℕ) :
    ((stableSortBy resultOrder l).take n).Pairwise RelGe :=
  (pairwise_relGe_stableSort l).sublist (List.take_sublist n _)

theorem mem_performSearch {store : Store} {query : String} {r : AdvResult}
    (h : r ∈ performSearch store query) : r ∈ scoredCandidates store query := by
  unfold performSearch at h
  exact mem_stableSortBy.mp (List.take_subset 5 _ h)

/-! ## C6: formatResults pass-through laws -/

/-- C6: for every results list and non-null aggregation, formatResults
returns the aggregation's description verbatim, regardless of results;
and on an empty results list without aggregation it returns the fixed
no-results string. -/
theorem formatResults_spec :
    (∀ (results : List AdvResult) (agg : AggregationResult),
        formatResults results (some agg) = agg.description) ∧
    formatResults [] none = "検索条件に一致する結果が見つかりませんでした。" :=
  ⟨fun _ _ => rfl, rfl⟩

/-! ## C3: classifier priority -/

/-- C3: a query containing an exact-search keyword is classified
exact_search even when it also contains a conversational keyword:
the exact tier is tested first, the position in the string is
irrelevant. -/
theorem classifier_exact_priority (query : String)
    (hex : ∃ k ∈ exactKeywords, jsIncludes (jsToLower query) k = true)
    (_hconv : ∃ k ∈ conversationalKeywords, jsIncludes (jsToLower query) k = true) :
    analyzeQueryType query = QueryType.exact_search := by
  obtain ⟨k, hk, hik⟩ := hex
  simp only [analyzeQueryType]
  rw [if_pos (List.any_eq_true.mpr ⟨k, hk, hik⟩)]

/-- Witness: a concrete query holding the exact keyword python and
the conversational keyword おすすめ, classified exact_search. -/
theorem classifier_exact_priority_witness :
    "python" ∈ exactKeywords ∧
    jsIncludes (jsToLower "pythonのおすすめ") "python" = true ∧
    "おすすめ" ∈ conversationalKeywords ∧
    jsIncludes (jsToLower "pythonのおすすめ") "おすすめ" = true ∧
    analyzeQueryType "pythonのおすすめ" = QueryType.exact_search :=
  ⟨by decide, by decide, by decide, by decide,
   classifier_exact_priority "pythonのおすすめ"
     ⟨"python", by decide, by decide⟩ ⟨"おすすめ", by decide, by decide⟩⟩

/-! ## C8: cosine similarity algebra -/

theorem wordSet_comm (a b : String) : wordSet a b = wordSet b a :=
  Finset.union_comm _ _

theorem dotProduct_comm (a b : String) : dotProduct a b = dotProduct b a := by
  unfold dotProduct
  rw [wordSet_comm]
  exact Finset.sum_congr rfl (fun w _ => Nat.mul_comm _ _)

theorem cosineSimSq_comm (a b : String) : cosineSimSq a b = cosineSimSq b a := by
  unfold cosineSimSq
  by_cases h1 : words a = [] ∨ words b = []
  · have h1s : words b = [] ∨ words a = [] := h1.symm
    rw [if_pos h1, if_pos h1s]
  · have h1s : ¬ (words b = [] ∨ words a = []) := fun hc => h1 hc.symm
    rw [if_neg h1, if_neg h1s]
    by_cases h2 : magSq a b = 0 ∨ magSq b a = 0
    · have h2s : magSq b a = 0 ∨ magSq a b = 0 := h2.symm
      rw [if_pos h2, if_pos h2s]
    · have h2s : ¬ (magSq b a = 0 ∨ magSq a b = 0) := fun hc => h2 hc.symm
      rw [if_neg h2, if_neg h2s]
      rw [dotProduct_comm, Nat.mul_comm (magSq a b) (magSq b a)]

theorem cosineSimSq_nonneg (a b : String) : 0 ≤ cosineSimSq a b := by
  unfold cosineSimSq
  split_ifs with h1 h2
  · exact le_refl 0
  · exact le_refl 0
  · rw [Rat.mkRat_eq_divInt, Rat.divInt_eq_div]
    apply div_nonneg
    · exact_mod_cast Int.ofNat_nonneg _
    · exact_mod_cast Int.ofNat_nonneg _

theorem dotSq_le_magSq_mul (a b : String) :
    dotProduct a b * dotProduct a b ≤ magSq a b * magSq b a := by
  have cs := Finset.sum_mul_sq_le_sq_mul_sq (wordSet a b)
    (fun w => (normWords a).count w) (fun w => (normWords b).count w)
  have hdot : dotProduct a b ^ 2 = dotProduct a b * dotProduct a b := pow_two _
  have hmq : magSq a b = ∑ w ∈ wordSet a b, ((normWords a).count w) ^ 2 := by
    unfold magSq
    exact Finset.sum_congr rfl (fun w _ => (pow_two _).symm)
  have hmt : magSq b a = ∑ w ∈ wordSet a b, ((normWords b).count w) ^ 2 := by
    unfold magSq
    rw [wordSet_comm b a]
    exact Finset.sum_congr rfl (fun w _ => (pow_two _).symm)
  calc dotProduct a b * dotProduct a b = dotProduct a b ^ 2 := (pow_two _).symm
    _ ≤ (∑ w ∈ wordSet a b, ((normWords a).count w) ^ 2) *
        ∑ w ∈ wordSet a b, ((normWords b).count w) ^ 2 := cs
    _ = magSq a b * magSq b a := by rw [hmq, hmt]

theorem cosineSimSq_le_one (a b : String) : cosineSimSq a b ≤ 1 := by
  unfold cosineSimSq
  split_ifs with h1 h2
  · norm_num
  · norm_num
  · push_neg at h2
    obtain ⟨hq, ht⟩ := h2
    rw [Rat.mkRat_eq_divInt, Rat.divInt_eq_div]
    have hpos : (0:ℚ) < ((magSq a b * magSq b a : ℕ) : ℤ) := by
      exact_mod_cast Nat.pos_of_ne_zero
        (Nat.mul_ne_zero hq ht)
    rw [div_le_one (by exact_mod_cast hpos)]
    exact_mod_cast dotSq_le_magSq_mul a b

theorem cosineSimSq_of_words_empty {a b : String} (h : words a = [] ∨ words b = []) :
    cosineSimSq a b = 0 := by
  unfold cosineSimSq
  rw [if_pos h]

/-- C8: the cosine similarity (the square root of cosineSimSq) is
symmetric, lies in [0, 1], and is 0 whenever either argument
tokenizes to the empty word list. -/
theorem cosine_similarity_properties (a b : String) :
    Real.sqrt (cosineSimSq a b) = Real.sqrt (cosineSimSq b a) ∧
    0 ≤ Real.sqrt (cosineSimSq a b) ∧
    Real.sqrt (cosineSimSq a b) ≤ 1 ∧
    ((words a = [] ∨ words b = []) → Real.sqrt (cosineSimSq a b) = 0) := by
  refine ⟨by rw [cosineSimSq_comm], Real.sqrt_nonneg _, ?_, ?_⟩
  · have h := cosineSimSq_le_one a b
    calc Real.sqrt (cosineSimSq a b) ≤ Real.sqrt 1 :=
          Real.sqrt_le_sqrt (by exact_mod_cast h)
      _ = 1 := Real.sqrt_one
  · intro h
    rw [cosineSimSq_of_words_empty h]
    simp

/-- Witness: the empty first argument gives similarity 0. -/
theorem cosine_similarity_properties_witness :
    Real.sqrt ((cosineSimSq "" "abc" : ℚ)) = 0 :=
  (cosine_similarity_properties "" "abc").2.2.2 (Or.inl (by decide))

/-! ## C1: score combination -/

/-- The store of the scoring counterexamples: one record whose
department is xyz and whose bio is y y y. -/
def cexPerson : PersonInfo := ⟨"a", "xyz", [], [], "y y y", "", 0⟩

/-- Engine initialized with cexPerson. -/
def cexStore : Store := initializeEngine [cexPerson]

/-- C1 (amended): every result returned by the scorer has strictly
positive relevance (zero-scored records are excluded), and its
relevance equals personRelevance: the exact/partial score when
positive — the cosine step being skipped then, NOT entered into a
maximum of all four steps — otherwise the best chunk cosine above
0.05, and in either case maxed with the conversational heuristic sum
when the query is conversational. -/
theorem performSearch_relevance_decomposition (store : Store) (query : String) (r : AdvResult)
    (hr : r ∈ performSearch store query) :
    Score.scoreLt (Score.q 0) r.relevance = true ∧
    (enumFrom 0 store.persons).any (fun ip =>
      r.person == ip.2 &&
      r.relevance == personRelevance store (jsToLower query) ip.1 ip.2 &&
      r.matchedChunks == (lexicalScore store (jsToLower query) ip.1 ip.2).2) = true := by
  have hmem := mem_performSearch hr
  unfold scoredCandidates at hmem
  obtain ⟨ip, hip, hsome⟩ := List.mem_filterMap.mp hmem
  simp only [scoreOne] at hsome
  split at hsome
  · next hpos =>
    have hr2 := Option.some.inj hsome
    subst hr2
    refine ⟨hpos, ?_⟩
    apply List.any_eq_true.mpr
    exact ⟨ip, hip, by simp⟩
  · exact absurd hsome (by simp)

/-- C1 counterexample: on cexStore with query y, the exact step is 0,
the partial step is 0.8, the only chunk's cosine similarity is
sqrt(9/10) which exceeds 0.05 and 0.8, and the conversational step is
0 — so the maximum over the four steps is sqrt(9/10) — yet the code
returns relevance 0.8, because a positive partial match skips the
cosine step entirely. -/
theorem performSearch_not_max_of_steps_counterexample :
    ((performSearch cexStore "y").map (fun r => r.relevance) = [Score.q (mkRat 8 10)]) ∧
    exactContainment "y" cexPerson = false ∧
    checkPartialMatch "y" cexPerson = mkRat 8 10 ∧
    (cexStore.chunks.map (fun c => cosineSimSq "y" (jsToLower c.content))) = [mkRat 9 10] ∧
    isConversationalQuery "y" = false ∧
    ((mkRat 8 10 : ℚ) : ℝ) < Real.sqrt ((mkRat 9 10 : ℚ)) ∧
    ¬ (((mkRat 8 10 : ℚ) : ℝ) =
        max (max 0 ((mkRat 8 10 : ℚ) : ℝ)) (max (Real.sqrt ((mkRat 9 10 : ℚ))) 0)) := by
  have h9 : ((mkRat 9 10 : ℚ) : ℝ) = 9/10 := by
    rw [Rat.mkRat_eq_divInt, Rat.divInt_eq_div]
    push_cast
    norm_num
  have h8 : ((mkRat 8 10 : ℚ) : ℝ) = 8/10 := by
    rw [Rat.mkRat_eq_divInt, Rat.divInt_eq_div]
    push_cast
    norm_num
  have hlt : ((mkRat 8 10 : ℚ) : ℝ) < Real.sqrt ((mkRat 9 10 : ℚ)) := by
    rw [h8, h9]
    exact (Real.lt_sqrt (by norm_num)).mpr (by norm_num)
  refine ⟨by decide, by decide, by decide, by decide, by decide, hlt, ?_⟩
  intro heq
  have hmax : max (max (0:ℝ) ((mkRat 8 10 : ℚ) : ℝ)) (max (Real.sqrt ((mkRat 9 10:ℚ))) 0) =
      Real.sqrt ((mkRat 9 10:ℚ)) := by
    rw [max_eq_right (by rw [h8]; norm_num : (0:ℝ) ≤ ((mkRat 8 10 : ℚ) : ℝ))]
    rw [max_eq_left (Real.sqrt_nonneg _)]
    exact max_eq_right hlt.le
  rw [hmax] at heq
  exact absurd heq (ne_of_lt hlt)

/-- The one result cexStore yields for query y. -/
def cexResult : AdvResult :=
  ⟨cexPerson, Score.q (mkRat 8 10), cexStore.chunks, "高い関連性", MatchType.similar⟩

/-- Witness for the amended C1 theorem at a concrete input. -/
theorem performSearch_relevance_decomposition_witness :
    Score.scoreLt (Score.q 0) cexResult.relevance = true ∧
    (enumFrom 0 cexStore.persons).any (fun ip =>
      cexResult.person == ip.2 &&
      cexResult.relevance == personRelevance cexStore (jsToLower "y") ip.1 ip.2 &&
      cexResult.matchedChunks == (lexicalScore cexStore (jsToLower "y") ip.1 ip.2).2) = true :=
  performSearch_relevance_decomposition cexStore "y" cexResult (by decide)

/-! ## C2: empty query -/

theorem checkPartialMatch_empty_query (p : PersonInfo) :
    checkPartialMatch "" p = mkRat 8 10 := by
  have h1 : jsIncludes (jsToLower p.department) "" = true := jsIncludes_hay_empty _
  simp only [checkPartialMatch, h1, Bool.true_or, if_true]
  split_ifs <;> decide

theorem exactContainment_empty_query {p : PersonInfo}
    (hname : p.name ≠ "") (hdept : p.department ≠ "")
    (hsk : ∀ sk ∈ p.skills, sk ≠ "") (hql : ∀ ql ∈ p.qualifications, ql ≠ "") :
    exactContainment "" p = false := by
  have hd := jsIncludes_empty_hay (jsToLower_ne_empty hdept)
  have hn := jsIncludes_empty_hay (jsToLower_ne_empty hname)
  have hs : p.skills.any (fun sk => jsIncludes "" (jsToLower sk)) = false := by
    apply List.any_eq_false.mpr
    intro sk hm
    rw [jsIncludes_empty_hay (jsToLower_ne_empty (hsk sk hm))]
    simp
  have hq : p.qualifications.any (fun ql => jsIncludes "" (jsToLower ql)) = false := by
    apply List.any_eq_false.mpr
    intro ql hm
    rw [jsIncludes_empty_hay (jsToLower_ne_empty (hql ql hm))]
    simp
  unfold exactContainment
  rw [hd, hn, hs, hq]
  rfl

theorem checkExactMatch_empty_query {p : PersonInfo}
    (hname : p.name ≠ "") (hdept : p.department ≠ "")
    (hsk : ∀ sk ∈ p.skills, sk ≠ "") (hql : ∀ ql ∈ p.qualifications, ql ≠ "") :
    checkExactMatch "" p = mkRat 8 10 := by
  unfold checkExactMatch
  rw [exactContainment_empty_query hname hdept hsk hql]
  simp only [Bool.false_eq_true, if_false, checkPartialMatch_empty_query]
  rw [if_pos (by decide : mkRat 8 10 > mkRat 7 10)]

theorem scoreOne_empty_query (store : Store) (i : ℕ) {p : PersonInfo}
    (hname : p.name ≠ "") (hdept : p.department ≠ "")
    (hsk : ∀ sk ∈ p.skills, sk ≠ "") (hql : ∀ ql ∈ p.qualifications, ql ≠ "") :
    ∃ r, scoreOne store "" (i, p) = some r ∧ r.relevance = Score.q (mkRat 8 10) := by
  have hrel : personRelevance store "" i p = Score.q (mkRat 8 10) := by
    unfold personRelevance lexicalScore
    rw [checkExactMatch_empty_query hname hdept hsk hql]
    rw [if_pos (by decide : mkRat 8 10 > (0:ℚ))]
    rw [if_neg (by decide : ¬ (isConversationalQuery "" = true))]
  refine ⟨⟨p, personRelevance store "" i p, (lexicalScore store "" i p).2,
    generateExplanation (personRelevance store "" i p),
    determineMatchType "" p (personRelevance store "" i p)⟩, ?_, by rw [hrel]⟩
  unfold scoreOne
  rw [if_pos]
  rw [hrel]
  decide

theorem filterMap_scoreOne_all_some (store : Store) (ps : List PersonInfo) (n : ℕ)
    (h : ∀ p ∈ ps, ∀ i, ∃ r, scoreOne store "" (i, p) = some r ∧ r.relevance = Score.q (mkRat 8 10)) :
    ((enumFrom n ps).filterMap (scoreOne store "")).length = ps.length ∧
    ∀ r ∈ (enumFrom n ps).filterMap (scoreOne store ""), r.relevance = Score.q (mkRat 8 10) := by
  induction ps generalizing n with
  | nil => simp [enumFrom]
  | cons p ps ih =>
    obtain ⟨r, hsome, hrel⟩ := h p (List.mem_cons_self _ _) n
    have ihh := ih (n + 1) (fun p2 hp2 i => h p2 (List.mem_cons_of_mem _ hp2) i)
    simp only [enumFrom, List.filterMap_cons_some hsome]
    constructor
    · simp [ihh.1]
    · intro r2 hr2
      rcases List.mem_cons.mp hr2 with hr2e | hr2m
      · rw [hr2e]; exact hrel
      · exact ihh.2 r2 hr2m

/-- The JS whitespace class of the tokenizer regex: a query is
whitespace-only when every character satisfies this predicate. -/
def isWsChar (c : Char) : Bool :=
  c.isWhitespace || c == '　'

theorem lowerChar_of_ws {c : Char} (h : isWsChar c = true) : lowerChar c = c := by
  have hc : c = ' ' ∨ c = '\t' ∨ c = '\r' ∨ c = '\n' ∨ c = '　' := by
    simp [isWsChar, Char.isWhitespace] at h
    tauto
  unfold lowerChar
  rcases hc with rfl | rfl | rfl | rfl | rfl <;> rw [if_neg (by decide)]

theorem jsToLower_blank {q : String} (h : ∀ c ∈ q.data, isWsChar c = true) :
    ∀ c ∈ (jsToLower q).data, isWsChar c = true := by
  intro c hc
  have hdata : (jsToLower q).data = q.data.map lowerChar := rfl
  rw [hdata] at hc
  obtain ⟨c2, hc2, hce⟩ := List.mem_map.mp hc
  rw [← hce, lowerChar_of_ws (h c2 hc2)]
  exact h c2 hc2

theorem startsWith_mem {needle hay : List Char} (h : startsWith needle hay = true) :
    ∀ c ∈ needle, c ∈ hay := by
  induction needle generalizing hay with
  | nil => intro c hc; simp at hc
  | cons a as ih =>
    cases hay with
    | nil => simp [startsWith] at h
    | cons b bs =>
      simp only [startsWith, Bool.and_eq_true, beq_iff_eq] at h
      intro c hc
      rcases List.mem_cons.mp hc with hc1 | hc2
      · rw [hc1, h.1]
        exact List.mem_cons_self _ _
      · exact List.mem_cons_of_mem _ (ih h.2 c hc2)

theorem occursIn_mem {needle hay : List Char} (h : occursIn needle hay = true) :
    ∀ c ∈ needle, c ∈ hay := by
  induction hay with
  | nil =>
    intro c hc
    unfold occursIn at h
    exact startsWith_mem h c hc
  | cons b bs ih =>
    unfold occursIn at h
    rcases Bool.or_eq_true_iff.mp h with h1 | h1
    · exact startsWith_mem h1
    · intro c hc
      exact List.mem_cons_of_mem _ (ih h1 c hc)

/-- A needle with any non-whitespace character never occurs in a
whitespace-only haystack. -/
theorem jsIncludes_blank_false {q k : String}
    (hq : ∀ c ∈ q.data, isWsChar c = true)
    (hk : ¬ (∀ c ∈ k.data, isWsChar c = true)) :
    jsIncludes q k = false := by
  cases hj : jsIncludes q k with
  | false => rfl
  | true =>
    exfalso
    apply hk
    intro c hc
    unfold jsIncludes at hj
    exact hq c (occursIn_mem hj c hc)

/-- C2 (amended/corrected): an empty or whitespace-only query never
raises an error: it matches no keyword tier (so it is classified
fuzzy_search), matches no aggregation pattern, and is handed to the
scorer, escalating exactly when the scorer returns nothing — but the
result sequence need not be empty.  In particular the empty query
partial-matches every record at 0.8 (every string contains the empty
string): on a store with no empty-string fields it returns min(5, n)
results, each scored 0.8; a whitespace-only query likewise matches
any record whose department, skill or qualification contains that
whitespace string (see the counterexample). -/
theorem search_blank_query (store : Store) (query : String)
    (hblank : ∀ c ∈ query.data, isWsChar c = true) :
    search store query = Except.ok
      ⟨performSearch store query, none, QueryType.fuzzy_search,
       (performSearch store query).isEmpty⟩ ∧
    (query = "" →
      (∀ p ∈ store.persons, p.name ≠ "" ∧ p.department ≠ "" ∧
        (∀ sk ∈ p.skills, sk ≠ "") ∧ (∀ ql ∈ p.qualifications, ql ≠ "")) →
      (performSearch store query).length = min 5 store.persons.length ∧
      ∀ r ∈ performSearch store query, r.relevance = Score.q (mkRat 8 10)) := by
  have hql : ∀ c ∈ (jsToLower query).data, isWsChar c = true := jsToLower_blank hblank
  have hany : ∀ (ks : List String), (∀ k ∈ ks, ¬ (∀ c ∈ k.data, isWsChar c = true)) →
      ks.any (fun k => jsIncludes (jsToLower query) k) = false := by
    intro ks hks
    apply List.any_eq_false.mpr
    intro k hk
    rw [jsIncludes_blank_false hql (hks k hk)]
    simp
  have htype : analyzeQueryType query = QueryType.fuzzy_search := by
    simp only [analyzeQueryType]
    rw [hany exactKeywords (by decide), hany conversationalKeywords (by decide),
        hany analyticalKeywords (by decide), hany generalKeywords (by decide)]
    rfl
  have hagg : detectAggregationQuery store query = none := by
    have e1 : jsIncludes (jsToLower query) "何人" = false :=
      jsIncludes_blank_false hql (by decide)
    have e2 : jsIncludes (jsToLower query) "人数" = false :=
      jsIncludes_blank_false hql (by decide)
    have e3 : jsIncludes (jsToLower query) "スキル" = false :=
      jsIncludes_blank_false hql (by decide)
    simp [detectAggregationQuery, detectSkillAgg, e1, e2, e3]
  constructor
  · simp only [search, hagg, htype]
    rfl
  · intro hqe h
    subst hqe
    have hjl : jsToLower "" = "" := rfl
    have hcand := filterMap_scoreOne_all_some store store.persons 0
      (fun p hp i => scoreOne_empty_query store i (h p hp).1 (h p hp).2.1 (h p hp).2.2.1 (h p hp).2.2.2)
    constructor
    · unfold performSearch scoredCandidates
      rw [hjl, List.length_take, length_stableSortBy, hcand.1]
    · intro r hr
      have hmem := mem_performSearch hr
      unfold scoredCandidates at hmem
      rw [hjl] at hmem
      exact hcand.2 r hmem

/-- A one-record store whose only field content is a department
without whitespace problems. -/
def emptyQueryPerson : PersonInfo := ⟨"a", "dev", [], [], "", "", 0⟩

/-- Engine initialized with emptyQueryPerson. -/
def emptyQueryStore : Store := initializeEngine [emptyQueryPerson]

/-- A one-record store whose department contains a space. -/
def wsPerson : PersonInfo := ⟨"a", "dev team", [], [], "", "", 0⟩

/-- Engine initialized with wsPerson. -/
def wsStore : Store := initializeEngine [wsPerson]

/-- C2 counterexample: both the empty query (on any store: every
string contains the empty string) and the whitespace-only query " "
(on a store whose department contains a space) return one 0.8-scored
result without escalating — not the empty sequence the claim
promises. -/
theorem blank_query_counterexample :
    (search emptyQueryStore "").toOption.map (fun o => (o.results.length, o.shouldUseGemini)) =
      some (1, false) ∧
    (search wsStore " ").toOption.map (fun o => (o.results.length, o.shouldUseGemini)) =
      some (1, false) := by
  refine ⟨by decide, by decide⟩

/-- Witness for the amended C2 theorem, at a whitespace-only query
and at the empty query. -/
theorem search_blank_query_witness :
    search wsStore " " = Except.ok
      ⟨performSearch wsStore " ", none, QueryType.fuzzy_search,
       (performSearch wsStore " ").isEmpty⟩ ∧
    search emptyQueryStore "" = Except.ok
      ⟨performSearch emptyQueryStore "", none, QueryType.fuzzy_search,
       (performSearch emptyQueryStore "").isEmpty⟩ ∧
    (performSearch emptyQueryStore "").length = min 5 emptyQueryStore.persons.length :=
  ⟨(search_blank_query wsStore " " (by decide)).1,
   (search_blank_query emptyQueryStore "" (by decide)).1,
   ((search_blank_query emptyQueryStore "" (by decide)).2 rfl (by decide)).1⟩

/-! ## C5: verbatim skill queries -/

/-- C5 (amended): a record one of whose skills occurs verbatim
(case-normalized) in the query is scored into the pre-truncation
candidate list with match_type exact and relevance at least 1.0 —
exactly 1.0 unless the conversational heuristic pushes the maximum
higher.  (It can still be missing from the returned results: the
top-5 cap may drop it, and aggregation queries bypass ranking.) -/
theorem skill_verbatim_scored_exact (store : Store) (query : String) (i : ℕ)
    (p : PersonInfo) (sk : String)
    (hip : (i, p) ∈ enumFrom 0 store.persons)
    (hsk : sk ∈ p.skills)
    (hinc : jsIncludes (jsToLower query) (jsToLower sk) = true) :
    ((scoredCandidates store query).any (fun r =>
      r.person == p && Score.scoreLe (Score.q 1) r.relevance &&
      r.matchType == MatchType.exact) = true) ∧
    (isConversationalQuery (jsToLower query) = false →
      (scoredCandidates store query).any (fun r =>
        r.person == p && r.relevance == Score.q 1) = true) := by
  have hcont : exactContainment (jsToLower query) p = true := by
    unfold exactContainment
    have hany : p.skills.any (fun sk2 => jsIncludes (jsToLower query) (jsToLower sk2)) = true :=
      List.any_eq_true.mpr ⟨sk, hsk, hinc⟩
    rw [hany]
    simp
  have hem : checkExactMatch (jsToLower query) p = 1 := by
    unfold checkExactMatch
    rw [hcont]
    simp
  have hlex : (lexicalScore store (jsToLower query) i p).1 = Score.q 1 := by
    unfold lexicalScore
    rw [hem]
    norm_num
  have hge : Score.scoreLe (Score.q 1) (personRelevance store (jsToLower query) i p) = true := by
    unfold personRelevance
    rw [hlex]
    split_ifs
    · exact scoreLe_smax_left _ _
    · exact scoreLe_refl _
  have hpos : Score.scoreLt (Score.q 0) (personRelevance store (jsToLower query) i p) = true :=
    scoreLt_of_lt_of_le (by decide) hge
  have hmt : determineMatchType (jsToLower query) p (personRelevance store (jsToLower query) i p) =
      MatchType.exact := by
    unfold determineMatchType
    rw [if_pos hge]
  have hsome : scoreOne store (jsToLower query) (i, p) = some
      ⟨p, personRelevance store (jsToLower query) i p,
       (lexicalScore store (jsToLower query) i p).2,
       generateExplanation (personRelevance store (jsToLower query) i p),
       determineMatchType (jsToLower query) p (personRelevance store (jsToLower query) i p)⟩ := by
    unfold scoreOne
    rw [if_pos hpos]
  constructor
  · apply List.any_eq_true.mpr
    refine ⟨_, List.mem_filterMap.mpr ⟨(i, p), hip, hsome⟩, ?_⟩
    simp [hge, hmt]
  · intro hnc
    have hrel : personRelevance store (jsToLower query) i p = Score.q 1 := by
      unfold personRelevance
      rw [hnc, hlex]
      simp
    apply List.any_eq_true.mpr
    refine ⟨_, List.mem_filterMap.mpr ⟨(i, p), hip, hsome⟩, ?_⟩
    simp [hrel]

/-- A record whose one skill is Python. -/
def pyPerson (n : String) : PersonInfo := ⟨n, "d", ["Python"], [], "", "", 0⟩

/-- Six records all holding Python: one more than the result cap. -/
def pyStore : Store :=
  initializeEngine [pyPerson "n1", pyPerson "n2", pyPerson "n3",
    pyPerson "n4", pyPerson "n5", pyPerson "n6"]

/-- C5 counterexample: the 6th record holds Python verbatim in the
query, yet search returns only the first five records — the claimed
record is absent from the returned results. -/
theorem skill_verbatim_counterexample :
    "Python" ∈ (pyPerson "n6").skills ∧
    jsIncludes (jsToLower "python") (jsToLower "Python") = true ∧
    pyStore.persons.length = 6 ∧
    ((search pyStore "python").toOption.map (fun o => o.results.map (fun r => r.person.name))) =
      some ["n1", "n2", "n3", "n4", "n5"] ∧
    ((search pyStore "python").toOption.map
      (fun o => o.results.any (fun r => r.person == pyPerson "n6"))) = some false := by
  refine ⟨by decide, by decide, by decide, by decide, by decide⟩

/-- Witness for the amended C5 theorem: the dropped 6th record is
nevertheless present in the candidate list with score 1.0 and
match_type exact. -/
theorem skill_verbatim_scored_exact_witness :
    ((scoredCandidates pyStore "python").any (fun r =>
      r.person == pyPerson "n6" && Score.scoreLe (Score.q 1) r.relevance &&
      r.matchType == MatchType.exact) = true) ∧
    (isConversationalQuery (jsToLower "python") = false →
      (scoredCandidates pyStore "python").any (fun r =>
        r.person == pyPerson "n6" && r.relevance == Score.q 1) = true) :=
  skill_verbatim_scored_exact pyStore "python" 5 (pyPerson "n6") "Python"
    (by decide) (by decide) (by decide)

/-! ## C7: the how-many aggregation -/

/-- Store of the C7 scenario with English department names. -/
def storeDevEn : Store :=
  initializeEngine [⟨"A", "Dev", [], [], "", "", 0⟩, ⟨"B", "Dev", [], [], "", "", 0⟩,
    ⟨"C", "Design", [], [], "", "", 0⟩]

/-- Store of the C7 scenario rendered in the engine's Japanese
vocabulary. -/
def storeDevJa : Store :=
  initializeEngine [⟨"A", "開発部", [], [], "", "", 0⟩, ⟨"B", "開発部", [], [], "", "", 0⟩,
    ⟨"C", "デザイン部", [], [], "", "", 0⟩]

/-- C7 counterexample: the English query How many people are in Dev?
matches no aggregation pattern at all — detection only knows the
Japanese keywords 何人/人数 and the three fixed department tokens —
so no AggregationResult with value 2 is produced. -/
theorem english_how_many_counterexample :
    detectAggregationQuery storeDevEn "How many people are in Dev?" = none ∧
    ((search storeDevEn "How many people are in Dev?").toOption.map
      (fun o => o.aggregation.isNone)) = some true := by
  refine ⟨by decide, by decide⟩

/-- C7 (amended): aggregation detection recognizes only the Japanese
patterns; a query containing 何人 or 人数 together with 開発部 yields
a count aggregation whose value is the number of records whose
department contains 開発, with a description naming 開発部 and the
count.  (The tokens インフラ and デザイン behave analogously; the
English scenario of the claim is never detected.) -/
theorem detectAgg_dev_count (store : Store) (query : String)
    (h1 : jsIncludes (jsToLower query) "何人" = true ∨ jsIncludes (jsToLower query) "人数" = true)
    (h2 : jsIncludes (jsToLower query) "開発部" = true) :
    detectAggregationQuery store query = some
      ⟨AggType.count,
       AggValue.num ((store.persons.filter (fun p => jsIncludes p.department "開発")).length),
       "開発部に所属している人は" ++
         toString ((store.persons.filter (fun p => jsIncludes p.department "開発")).length) ++
         "人です。"⟩ := by
  have hor : (jsIncludes (jsToLower query) "何人" || jsIncludes (jsToLower query) "人数") = true := by
    rcases h1 with h | h <;> simp [h]
  simp [detectAggregationQuery, hor, h2, deptCountAgg]

/-- Witness: in the Japanese rendering of the A/B/C scenario the
query 開発部は何人ですか produces the count 2, whose description
mentions both 開発部 and 2. -/
theorem detectAgg_dev_count_witness :
    detectAggregationQuery storeDevJa "開発部は何人ですか" = some
      ⟨AggType.count, AggValue.num 2, "開発部に所属している人は2人です。"⟩ ∧
    jsIncludes "開発部に所属している人は2人です。" "開発部" = true ∧
    jsIncludes "開発部に所属している人は2人です。" "2" = true := by
  refine ⟨?_, by decide, by decide⟩
  have h := detectAgg_dev_count storeDevJa "開発部は何人ですか" (Or.inl (by decide)) (by decide)
  rw [h]
  decide

/-! ## C9: queries matching nothing escalate -/

theorem cosineSimSq_eq_zero_of_disjoint {a b : String}
    (h : ∀ w ∈ normWords a, w ∉ normWords b) : cosineSimSq a b = 0 := by
  unfold cosineSimSq
  split_ifs with h1 h2
  · rfl
  · rfl
  · have hdot : dotProduct a b = 0 := by
      unfold dotProduct
      apply Finset.sum_eq_zero
      intro w _
      by_cases hwa : w ∈ normWords a
      · rw [List.count_eq_zero.mpr (h w hwa), Nat.mul_zero]
      · rw [List.count_eq_zero.mpr hwa, Nat.zero_mul]
    rw [hdot]
    rw [Rat.mkRat_eq_divInt, Rat.divInt_eq_div]
    push_cast
    simp

theorem cosineFold_zero (queryLower : String) (cs : List Chunk) (acc : Score × List Chunk)
    (h : ∀ c ∈ cs, cosineSimSq queryLower (jsToLower c.content) = 0) :
    cs.foldl (cosineAccum queryLower) acc = acc := by
  induction cs generalizing acc with
  | nil => rfl
  | cons c cs ih =>
    have hacc : cosineAccum queryLower acc c = acc := by
      simp only [cosineAccum, h c (List.mem_cons_self _ _)]
      rw [if_neg (by decide : ¬ (Score.scoreLt (Score.q (mkRat 5 100)) (Score.s 0) = true))]
    simp only [List.foldl_cons, hacc]
    exact ih _ (fun c2 hc2 => h c2 (List.mem_cons_of_mem _ hc2))

theorem scoreOne_zero (store : Store) (ql : String) (i : ℕ) (p : PersonInfo)
    (hexact : checkExactMatch ql p = 0)
    (hconv : calculateConversationalScore ql p = 0)
    (htok : ∀ c ∈ store.chunks, ∀ w ∈ normWords ql, w ∉ normWords (jsToLower c.content)) :
    scoreOne store ql (i, p) = none := by
  have hlex : lexicalScore store ql i p = (Score.q 0, []) := by
    unfold lexicalScore
    rw [hexact]
    rw [if_neg (by norm_num : ¬ ((0:ℚ) > 0))]
    apply cosineFold_zero
    intro c hc
    exact cosineSimSq_eq_zero_of_disjoint
      (fun w hw => htok c (List.mem_of_mem_filter hc) w hw)
  have hrel : personRelevance store ql i p = Score.q 0 := by
    unfold personRelevance
    rw [hlex]
    split_ifs with hic
    · rw [hconv]
      decide
    · rfl
  unfold scoreOne
  rw [hrel]
  rw [if_neg (by decide : ¬ (Score.scoreLt (Score.q 0) (Score.q 0) = true))]

theorem filterMap_scoreOne_nil (store : Store) (ql : String) (ps : List PersonInfo) (n : ℕ)
    (h : ∀ p ∈ ps, ∀ i, scoreOne store ql (i, p) = none) :
    (enumFrom n ps).filterMap (scoreOne store ql) = [] := by
  induction ps generalizing n with
  | nil => rfl
  | cons p ps ih =>
    simp only [enumFrom, List.filterMap_cons_none (h p (List.mem_cons_self _ _) n)]
    exact ih (n + 1) (fun p2 h2 i => h p2 (List.mem_cons_of_mem _ h2) i)

/-- C9 (amended/corrected): no-overlap of query tokens with chunk
tokens alone does NOT make results empty (partial and conversational
matches need no token overlap).  Under the completed premises — no
aggregation pattern, an exact_search or fuzzy_search classification,
zero exact/partial score and zero conversational score for every
record, and no token overlap with any chunk (which forces every
cosine similarity to 0) — search returns no results and sets
shouldUseGemini. -/
theorem search_no_match_escalates (store : Store) (query : String)
    (hagg : detectAggregationQuery store query = none)
    (htype : analyzeQueryType query = QueryType.exact_search ∨
      analyzeQueryType query = QueryType.fuzzy_search)
    (hexact : ∀ p ∈ store.persons, checkExactMatch (jsToLower query) p = 0)
    (hconv : ∀ p ∈ store.persons, calculateConversationalScore (jsToLower query) p = 0)
    (htok : ∀ c ∈ store.chunks, ∀ w ∈ normWords (jsToLower query), w ∉ normWords (jsToLower c.content)) :
    search store query = Except.ok ⟨[], none, analyzeQueryType query, true⟩ := by
  have hperf : performSearch store query = [] := by
    unfold performSearch scoredCandidates
    rw [filterMap_scoreOne_nil store (jsToLower query) store.persons 0
      (fun p hp i => scoreOne_zero store (jsToLower query) i p (hexact p hp) (hconv p hp) htok)]
    rfl
  rcases htype with h | h
  · simp only [search, hagg, h]
    have hh : handleExactSearch store query = ⟨[], none, QueryType.exact_search, true⟩ := by
      unfold handleExactSearch
      rw [hperf]
      rfl
    rw [hh]
  · simp only [search, hagg, h]
    have hh : handleFuzzySearch store query = ⟨[], none, QueryType.fuzzy_search, true⟩ := by
      unfold handleFuzzySearch
      rw [hperf]
      rfl
    rw [hh]

/-- The store of the C9 counterexample and witness: one record with
department xyz. -/
def tokPerson : PersonInfo := ⟨"a", "xyz", [], [], "", "", 0⟩

/-- Engine initialized with tokPerson. -/
def tokStore : Store := initializeEngine [tokPerson]

/-- C9 counterexample: the query y shares no token with any chunk and
matches no aggregation pattern, yet results is non-empty (the
bidirectional partial match fires because xyz contains y) and
shouldUseGemini is false — the original claim fails. -/
theorem no_overlap_counterexample :
    detectAggregationQuery tokStore "y" = none ∧
    (∀ c ∈ tokStore.chunks, ∀ w ∈ normWords (jsToLower "y"),
      w ∉ normWords (jsToLower c.content)) ∧
    ((search tokStore "y").toOption.map (fun o => (o.results.length, o.shouldUseGemini))) =
      some (1, false) := by
  refine ⟨by decide, by decide, by decide⟩

/-- Witness for the amended C9 theorem: the query qq scores nothing
in tokStore, so search yields no results and escalates. -/
theorem search_no_match_escalates_witness :
    search tokStore "qq" = Except.ok ⟨[], none, analyzeQueryType "qq", true⟩ ∧
    analyzeQueryType "qq" = QueryType.fuzzy_search :=
  ⟨search_no_match_escalates tokStore "qq" (by decide) (Or.inr (by decide))
    (by decide) (by decide) (by decide), by decide⟩

/-! ## C10: chunk-set invariant -/

theorem mem_if_singleton {α : Type} {c x : α} {cond : Prop} [Decidable cond]
    (h : c ∈ (if cond then [x] else [])) : c = x := by
  split at h
  · simpa using h
  · simp at h

/-- C10: after initialization the chunk set is exactly the per-record
chunks in record order; every chunk of a record carries that record's
name and metadata verbatim; and each record contributes one basic
chunk plus a skills, experience, and qualifications chunk exactly
when the corresponding field is non-empty — between 1 and 4 chunks. -/
theorem chunks_invariant (persons : List PersonInfo) :
    (initializeEngine persons).chunks =
      (enumFrom 0 persons).flatMap (fun ip => personChunksOf ip.1 ip.2) ∧
    ∀ i p,
      (∀ c ∈ personChunksOf i p, c.personName = p.name ∧ c.metadata = metaOf p) ∧
      ((personChunksOf i p).map (fun c => c.chunkType) =
        [ChunkType.basic] ++
        (if p.skills ≠ [] then [ChunkType.skills] else []) ++
        (if p.experience ≠ "" then [ChunkType.experience] else []) ++
        (if p.qualifications ≠ [] then [ChunkType.qualifications] else [])) ∧
      1 ≤ (personChunksOf i p).length ∧ (personChunksOf i p).length ≤ 4 := by
  refine ⟨rfl, fun i p => ⟨?_, ?_, ?_, ?_⟩⟩
  · intro c hc
    unfold personChunksOf at hc
    rcases List.mem_cons.mp hc with h1 | h1
    · rw [h1]; exact ⟨rfl, rfl⟩
    · rcases List.mem_append.mp h1 with h2 | h2
      · rcases List.mem_append.mp h2 with h3 | h3
        · rw [mem_if_singleton h3]; exact ⟨rfl, rfl⟩
        · rw [mem_if_singleton h3]; exact ⟨rfl, rfl⟩
      · rw [mem_if_singleton h2]; exact ⟨rfl, rfl⟩
  · by_cases hs : p.skills = [] <;> by_cases he : p.experience = "" <;>
      by_cases hq : p.qualifications = [] <;>
      simp [personChunksOf, hs, he, hq]
  · by_cases hs : p.skills = [] <;> by_cases he : p.experience = "" <;>
      by_cases hq : p.qualifications = [] <;>
      simp [personChunksOf, hs, he, hq]
  · by_cases hs : p.skills = [] <;> by_cases he : p.experience = "" <;>
      by_cases hq : p.qualifications = [] <;>
      simp [personChunksOf, hs, he, hq]

/-- A record with all four facets populated. -/
def wPerson : PersonInfo := ⟨"w", "dep", ["s1"], ["q1"], "pr", "exp", 4⟩

/-- The basic chunk wPerson generates at index 0. -/
def wChunkBasic : Chunk :=
  ⟨"person_0_basic", "wはdepに所属しています。pr", "person_0", "w",
   ChunkType.basic, ⟨"dep", ["s1"], ["q1"], 4⟩⟩

/-- Witness for the chunk invariant at a concrete fully-populated
record: four chunks, one of each type, metadata copied verbatim. -/
theorem chunks_invariant_witness :
    wChunkBasic ∈ personChunksOf 0 wPerson ∧
    wChunkBasic.personName = wPerson.name ∧ wChunkBasic.metadata = metaOf wPerson ∧
    (personChunksOf 0 wPerson).map (fun c => c.chunkType) =
      [ChunkType.basic] ++ [ChunkType.skills] ++ [ChunkType.experience] ++
        [ChunkType.qualifications] ∧
    1 ≤ (personChunksOf 0 wPerson).length ∧ (personChunksOf 0 wPerson).length ≤ 4 := by
  have h := (chunks_invariant [wPerson]).2 0 wPerson
  have hm : wChunkBasic ∈ personChunksOf 0 wPerson := by decide
  refine ⟨hm, (h.1 wChunkBasic hm).1, (h.1 wChunkBasic hm).2, ?_, h.2.2.1, h.2.2.2⟩
  rw [h.2.1]
  decide

/-! ## C4: cap and ordering of results -/

theorem performSearch_len_le (store : Store) (query : String) :
    (performSearch store query).length ≤ 5 := by
  unfold performSearch
  rw [List.length_take]
  exact min_le_left _ _

theorem performSearch_pairwise (store : Store) (query : String) :
    (performSearch store query).Pairwise RelGe :=
  pairwise_relGe_sortTake _ _

theorem findTopPerformers_len_le (store : Store) :
    (findTopPerformers store).length ≤ 5 := by
  unfold findTopPerformers
  rw [List.length_take]
  exact le_trans (min_le_left _ _) (by norm_num)

theorem findTopPerformers_pairwise (store : Store) :
    (findTopPerformers store).Pairwise RelGe := by
  unfold findTopPerformers
  exact pairwise_relGe_sortTake _ _

/-- C4: whenever search returns normally, the result sequence has at
most 5 entries and is sorted in non-increasing order of the real
relevance values. -/
theorem search_results_capped_sorted (store : Store) (query : String) (out : SearchOutput)
    (h : search store query = Except.ok out) :
    out.results.length ≤ 5 ∧ out.results.Pairwise RelGe := by
  unfold search at h
  split at h
  · -- an aggregation pattern matched: no results
    simp only [Except.ok.injEq] at h
    subst h
    exact ⟨by simp, by simp⟩
  · split at h
    · -- exact_search
      simp only [Except.ok.injEq] at h
      subst h
      have hr : (handleExactSearch store query).results = performSearch store query := rfl
      rw [hr]
      exact ⟨performSearch_len_le _ _, performSearch_pairwise _ _⟩
    · -- fuzzy_search
      simp only [Except.ok.injEq] at h
      subst h
      have hr : (handleFuzzySearch store query).results = performSearch store query := rfl
      rw [hr]
      exact ⟨performSearch_len_le _ _, performSearch_pairwise _ _⟩
    · -- analytical
      unfold handleAnalyticalQuery at h
      simp only [] at h
      split_ifs at h
      · -- department statistics (formatter may throw)
        split at h
        · simp at h
        · simp only [Except.ok.injEq] at h
          subst h
          exact ⟨by simp, by simp⟩
      · -- skill statistics (formatter may throw)
        split at h
        · simp at h
        · simp only [Except.ok.injEq] at h
          subst h
          exact ⟨by simp, by simp⟩
      · -- experience statistics
        simp only [Except.ok.injEq] at h
        subst h
        exact ⟨by simp, by simp⟩
      · -- top performers
        simp only [Except.ok.injEq] at h
        subst h
        exact ⟨findTopPerformers_len_le _, findTopPerformers_pairwise _⟩
      · -- no analytical branch applies
        simp only [Except.ok.injEq] at h
        subst h
        exact ⟨by simp, by simp⟩
    · -- general_question
      simp only [Except.ok.injEq] at h
      subst h
      unfold handleGeneralQuestion
      simp only []
      split_ifs <;>
        first
        | exact ⟨performSearch_len_le _ _, performSearch_pairwise _ _⟩
        | exact ⟨by norm_num, List.Pairwise.nil⟩

/-- Witness for C4 at a concrete input that returns normally. -/
theorem search_results_capped_sorted_witness :
    (SearchOutput.mk [] none QueryType.fuzzy_search true).results.length ≤ 5 ∧
    (SearchOutput.mk [] none QueryType.fuzzy_search true).results.Pairwise RelGe :=
  search_results_capped_sorted (initializeEngine []) ""
    ⟨[], none, QueryType.fuzzy_search, true⟩ (by decide)
